import Mathlib

/-!
Verification of the image-composition core of `src/app/components/ImageComposer.tsx`.

Shallow-embedding conventions:
* JavaScript numbers are modelled as rationals (`ℚ`); the quantities involved
  (pixel channels, font sizes, canvas coordinates) stay far below the range
  where IEEE-754 rounding could change any comparison made by the code.
* JavaScript strings are modelled as `List Char`; `split`, `includes`, `trim`
  and concatenation are modelled by the corresponding list operations.
* The canvas 2D context is modelled by its observable effect: a render pass
  produces an ordered list of drawing commands (`RenderOp`).  Text measurement
  (`ctx.measureText`) is an abstract parameter `measureAt : ℚ → List Char → ℚ`
  giving the rendered width of a string at a given font size (the code sets
  `ctx.font` with the current font size before measuring).
* `Math.random()` results are passed in as explicit rational parameters.
-/

namespace ImageComposer

/-- An RGB color triple; the code manipulates possibly fractional channel
values (averages), so channels are rationals. -/
structure RGB where
  r : ℚ
  g : ℚ
  b : ℚ
deriving DecidableEq

/-- `clamp(v, min = 0, max = 255)` from the source. -/
def clamp (v : ℚ) : ℚ := min 255 (max 0 v)

/-- JavaScript `Math.round` (round half up). -/
def jsRound (q : ℚ) : ℤ := ⌊q + 1/2⌋

/-- Hex digit for a value in `[0, 15]` (lowercase, as `Number.toString(16)`). -/
def hexDigitChar (n : ℕ) : Char :=
  if n < 10 then Char.ofNat (48 + n) else Char.ofNat (87 + n)

/-- Two-digit lowercase hex rendering of a byte, as
`n.toString(16).padStart(2, "0")` for `n ≤ 255`. -/
def byteToHex (n : ℕ) : String :=
  String.mk [hexDigitChar (n / 16), hexDigitChar (n % 16)]

/-- `rgbToHex` from the source: clamp the rounded channels to `[0,255]` and
render `#rrggbb`. -/
def rgbToHex (c : RGB) : String :=
  let toHexByte : ℚ → String := fun n => byteToHex (min 255 (max 0 (jsRound n))).toNat
  "#" ++ toHexByte c.r ++ toHexByte c.g ++ toHexByte c.b

/-- `adjustColor` from the source: shift every channel by `delta`, clamping
each to `[0, 255]`. -/
def adjustColor (color : RGB) (delta : ℚ) : RGB :=
  { r := clamp (color.r + delta), g := clamp (color.g + delta), b := clamp (color.b + delta) }

/-- `getLuminance` from the source. -/
def getLuminance (c : RGB) : ℚ := 0.299 * c.r + 0.587 * c.g + 0.114 * c.b

/-- The per-pixel salience score computed inside the sampling loop of
`analyzeImageColors`: `saturation * 0.6 + contrastToMid * 0.4`. -/
def pixelScore (p : RGB) : ℚ :=
  let mx := max p.r (max p.g p.b)
  let mn := min p.r (min p.g p.b)
  let saturat : ℚ := if mx = 0 then 0 else (mx - mn) / mx
  let contrastToMid : ℚ := |getLuminance p - 128| / 128
  saturat * 0.6 + contrastToMid * 0.4

/-- Accumulator state of the sampling loop of `analyzeImageColors`. -/
structure ScanState where
  sumR : ℚ
  sumG : ℚ
  sumB : ℚ
  maxScore : ℚ
  accent : RGB
deriving DecidableEq

/-- One iteration of the sampling loop of `analyzeImageColors`: accumulate
channel sums and keep the strictly best-scoring pixel seen so far. -/
def scanStep (st : ScanState) (p : RGB) : ScanState :=
  if pixelScore p > st.maxScore then
    { sumR := st.sumR + p.r, sumG := st.sumG + p.g, sumB := st.sumB + p.b,
      maxScore := pixelScore p, accent := p }
  else
    { sumR := st.sumR + p.r, sumG := st.sumG + p.g, sumB := st.sumB + p.b,
      maxScore := st.maxScore, accent := st.accent }

/-- `ImageTone` from the source. -/
structure ImageTone where
  average : RGB
  accent : RGB
  isDark : Bool
deriving DecidableEq

/-- `analyzeImageColors` from the source, over the list of sampled pixels in
scan order (the code reads a 64×64 = 4096 pixel grid; the `null` return for a
missing 2D context is an environment failure outside this model).  The
accumulator starts with `maxScore = -1` and `accent = (255,255,255)`; the
average divides the channel sums by the pixel count. -/
def analyzeImageColors (pixels : List RGB) : ImageTone :=
  let st := pixels.foldl scanStep ⟨0, 0, 0, -1, ⟨255, 255, 255⟩⟩
  let n : ℚ := pixels.length
  let average : RGB := ⟨st.sumR / n, st.sumG / n, st.sumB / n⟩
  ⟨average, st.accent, decide (getLuminance average < 115)⟩

/-- `THAI_FONT_FALLBACK` from the source. -/
def THAI_FONT_FALLBACK : String :=
  "\"Sarabun\", \"Noto Sans Thai\", \"Kanit\", \"Sukhumvit Set\", \"Prompt\", \"Maitree\", \"Pridi\", system-ui, -apple-system, \"Tahoma\", \"Arial\", sans-serif"

/-- `FONT_CHOICES` from the source. -/
def FONT_CHOICES : List String :=
  ["Sarabun", "Kanit", "Pridi", "Athiti", "Prompt", "Maitree", "Bai Jamjuree", "Anuphan"]

/-- `buildFontStack` from the source; `none` models a JavaScript `undefined`
primary family. -/
def buildFontStack (primary : Option String) : String :=
  match primary with
  | some p => "\"" ++ p ++ "\", " ++ THAI_FONT_FALLBACK
  | none => THAI_FONT_FALLBACK

/-- `pickRandomFontStack` from the source, with the `Math.random()` draw
(`rFont ∈ [0,1)`) passed explicitly. -/
def pickRandomFontStack (rFont : ℚ) : String :=
  buildFontStack (FONT_CHOICES.get? (Int.toNat ⌊rFont * (FONT_CHOICES.length : ℚ)⌋))

/-- `SARABUN_STACK` from the source.  At runtime it composes the font family
reported by `next/font`; this model uses the code's own fallback branch
`"Sarabun", THAI_FONT_FALLBACK` taken when that runtime value is empty. -/
def SARABUN_STACK : String := "\"Sarabun\", " ++ THAI_FONT_FALLBACK

/-- `FontStyle` from the source. -/
structure FontStyle where
  size : ℚ
  lineHeight : ℚ
  paddingX : ℚ
  paddingY : ℚ
  fontWeight : ℕ
  fill : String
  stroke : String
  strokeWidth : ℚ
  shadowColor : String
  shadowBlur : ℚ
  shadowOffsetY : ℚ
  fontFamily : String
deriving DecidableEq

/-- The initial `useState<FontStyle>` literal from the source. -/
def defaultFontStyle : FontStyle :=
  { size := 54, lineHeight := 1.22, paddingX := 80, paddingY := 90, fontWeight := 700,
    fill := "#F5F7FF", stroke := "#7A0D1B", strokeWidth := 3,
    shadowColor := "rgba(0,0,0,0.55)", shadowBlur := 14, shadowOffsetY := 6,
    fontFamily := SARABUN_STACK }

/-- `PresetMode` from the source. -/
inductive PresetMode where
  | adaptive
  | gold
  | strike
  | banner
deriving DecidableEq

/-- The `Partial<FontStyle>` record returned by `deriveFontStyleFromImage`:
exactly the fields the adaptive derivation produces. -/
structure DerivedStyle where
  fill : String
  stroke : String
  shadowColor : String
  strokeWidth : ℚ
  fontFamily : String
  lineHeight : ℚ
  size : ℚ
  paddingY : ℚ
deriving DecidableEq

/-- `deriveFontStyleFromImage` from the source, over the sampled pixel list,
with the four `Math.random()` draws (each in `[0,1)`) passed explicitly. -/
def deriveFontStyleFromImage (pixels : List RGB) (rSize rPad rLine rFont : ℚ) : DerivedStyle :=
  let tone := analyzeImageColors pixels
  let fillBase := if tone.isDark then adjustColor tone.average 65 else adjustColor tone.average (-80)
  let strokeBase := if tone.isDark then adjustColor tone.accent (-40) else adjustColor tone.accent 50
  { fill := rgbToHex fillBase,
    stroke := rgbToHex strokeBase,
    shadowColor := if tone.isDark then "rgba(0,0,0,0.55)" else "rgba(0,0,0,0.38)",
    strokeWidth := if tone.isDark then 3.6 else 3.2,
    fontFamily := pickRandomFontStack rFont,
    lineHeight := 1.18 + rLine * 0.07,
    size := (jsRound (50 + rSize * 10) : ℤ),
    paddingY := 78 + (jsRound (rPad * 18) : ℤ) }

/-- The `setFontStyle` updater executed by the `adaptStyle` effect
(`{...prev, ...adaptive, fontFamily: prev.fontFamily, fontWeight: prev.fontWeight}`). -/
def adaptStyleMerge (prev : FontStyle) (adaptive : DerivedStyle) : FontStyle :=
  { size := adaptive.size, lineHeight := adaptive.lineHeight,
    paddingX := prev.paddingX, paddingY := adaptive.paddingY,
    fontWeight := prev.fontWeight,
    fill := adaptive.fill, stroke := adaptive.stroke, strokeWidth := adaptive.strokeWidth,
    shadowColor := adaptive.shadowColor,
    shadowBlur := prev.shadowBlur, shadowOffsetY := prev.shadowOffsetY,
    fontFamily := prev.fontFamily }

/-- The `adaptStyle` effect from the source `useEffect`: it bails out unless an
image URL is set and the preset is adaptive, unless the image decoded, and
unless the effect is still current (`cancelled` guard); otherwise it applies
the derived style to the live font style via `adaptStyleMerge`. -/
def adaptStyle (hasImage : Bool) (preset : PresetMode) (decoded : Option (List RGB))
    (cancelled : Bool) (rSize rPad rLine rFont : ℚ) (prev : FontStyle) : FontStyle :=
  match hasImage, preset, decoded with
  | true, PresetMode.adaptive, some pixels =>
    if cancelled then prev
    else adaptStyleMerge prev (deriveFontStyleFromImage pixels rSize rPad rLine rFont)
  | _, _, _ => prev

/-- JavaScript `text.split(sep)` for a single-character separator, over
character lists (`"".split(c) = [""]`, separators at the ends produce empty
fragments). -/
def splitOnChar (sep : Char) : List Char → List (List Char)
  | [] => [[]]
  | c :: cs =>
    match splitOnChar sep cs with
    | [] => [[]]
    | p :: ps => if c = sep then [] :: p :: ps else (c :: p) :: ps

/-- `text.replace(/\r/g, "")` from `wrapText`. -/
def stripCR (text : List Char) : List Char := text.filter (fun c => c ≠ '\r')

/-- The tokenization inside `wrapText`: split a paragraph on spaces when it
contains one (word wrap), otherwise into single characters (glyph wrap);
`filter(Boolean)` drops empty fragments. -/
def tokensOf (paragraph : List Char) : List (List Char) :=
  if ' ' ∈ paragraph then (splitOnChar ' ' paragraph).filter (fun t => t ≠ [])
  else paragraph.map (fun c => [c])

/-- The greedy token-accumulation loop of `wrapText` over one paragraph's
token list: `line` is the line under construction; a token that would overflow
a non-empty line commits that line; the final non-empty line is committed at
the end. -/
def wrapLoop (measure : List Char → ℚ) (maxWidth : ℚ) (hasSpace : Bool) :
    List (List Char) → List Char → List (List Char)
  | [], line => if line ≠ [] then [line] else []
  | piece :: rest, line =>
    let testLine :=
      if line = [] then piece
      else if hasSpace then line ++ [' '] ++ piece else line ++ piece
    if measure testLine > maxWidth ∧ line ≠ [] then
      line :: wrapLoop measure maxWidth hasSpace rest piece
    else
      wrapLoop measure maxWidth hasSpace rest testLine

/-- `wrapText`'s handling of a single paragraph: word wrap when the paragraph
contains a space, glyph wrap otherwise. -/
def wrapParagraph (measure : List Char → ℚ) (maxWidth : ℚ) (paragraph : List Char) :
    List (List Char) :=
  if ' ' ∈ paragraph then
    wrapLoop measure maxWidth true ((splitOnChar ' ' paragraph).filter (fun t => t ≠ [])) []
  else
    wrapLoop measure maxWidth false (paragraph.map (fun c => [c])) []

/-- The per-paragraph outputs joined with the empty separator line that
`wrapText` pushes after every paragraph except the last. -/
def joinSep : List (List (List Char)) → List (List Char)
  | [] => []
  | [l] => l
  | l :: l2 :: ls => l ++ ([] : List Char) :: joinSep (l2 :: ls)

/-- `wrapText` from the source: strip carriage returns, split into paragraphs
on newlines, wrap each paragraph, and keep an empty line between paragraphs. -/
def wrapText (measure : List Char → ℚ) (text : List Char) (maxWidth : ℚ) :
    List (List Char) :=
  joinSep ((splitOnChar '\n' (stripCR text)).map (wrapParagraph measure maxWidth))

/-- The `candidate.reduce((acc, ln) => Math.max(acc, measure(ln).width), 0)`
computation in the fitting loop of `draw`. -/
def longestLineWidth (measure : List Char → ℚ) (lines : List (List Char)) : ℚ :=
  lines.foldl (fun acc ln => max acc (measure ln)) 0

/-- The font-size fitting loop of `draw`
(`while (drawFontSize >= 34) { wrap; if fits break; drawFontSize -= 2 }`),
with explicit fuel (the loop structurally terminates since the size drops by 2
per iteration); the third component counts executed loop-body iterations. -/
def fitAux (measureAt : ℚ → List Char → ℚ) (maxWidth : ℚ) (text : List Char) :
    ℕ → ℚ → List (List Char) → ℚ × List (List Char) × ℕ
  | 0, size, lines => (size, lines, 0)
  | fuel + 1, size, lines =>
    if 34 ≤ size then
      let candidate := wrapText (measureAt size) text maxWidth
      if longestLineWidth (measureAt size) candidate ≤ maxWidth then (size, candidate, 1)
      else
        let r := fitAux measureAt maxWidth text fuel (size - 2) candidate
        (r.1, r.2.1, r.2.2 + 1)
    else (size, lines, 0)

/-- Fuel that always suffices for `fitAux` (the loop runs at most
`(size - 32)/2` iterations). -/
def fitFuel (size : ℚ) : ℕ := (Int.toNat ⌈size⌉) + 1

/-- The fitting loop of `draw` started at the configured size with an empty
line list, returning `(drawFontSize, lines, iterations)`. -/
def fitText (measureAt : ℚ → List Char → ℚ) (maxWidth : ℚ) (text : List Char) (size : ℚ) :
    ℚ × List (List Char) × ℕ :=
  fitAux measureAt maxWidth text (fitFuel size) size []

/-- JavaScript `String.prototype.trim` over character lists. -/
def trimStr (l : List Char) : List Char :=
  ((l.dropWhile Char.isWhitespace).reverse.dropWhile Char.isWhitespace).reverse

/-- A decoded image, reduced to the dimensions `draw` reads. -/
structure Img where
  width : ℕ
  height : ℕ
deriving DecidableEq

/-- Outcome of an image decode attempt. -/
inductive DecodeOutcome where
  | ok (img : Img)
  | err
deriving DecidableEq

/-- `loadImageSafe` from the source: both the `onload` and the `onerror` path
resolve the promise (never reject), so a failed decode yields `none`. -/
def loadImageSafe : DecodeOutcome → Option Img
  | DecodeOutcome.ok img => some img
  | DecodeOutcome.err => none

/-- The logo settings state from the source. -/
structure LogoSettings where
  size : ℚ
  opacity : ℚ
  blur : ℚ
  padding : ℚ
deriving DecidableEq

/-- The source crop rectangle of the cover-fit placement in `draw`. -/
structure CropRect where
  sx : ℚ
  sy : ℚ
  sw : ℚ
  sh : ℚ
deriving DecidableEq

/-- The cover-fit crop computation of `draw` (lines 407–425): compare the
image aspect ratio with the canvas ratio `960/1200` and crop, centered, along
the axis with excess. -/
def coverCrop (w h : ℕ) : CropRect :=
  let imgAR : ℚ := (w : ℚ) / (h : ℚ)
  let canvasAR : ℚ := 960 / 1200
  if imgAR > canvasAR then
    let sh : ℚ := h
    let sw : ℚ := (⌊sh * canvasAR⌋ : ℤ)
    let sx : ℚ := (⌊((w : ℚ) - sw) / 2⌋ : ℤ)
    ⟨sx, 0, sw, sh⟩
  else
    let sw : ℚ := w
    let sh : ℚ := (⌊sw / canvasAR⌋ : ℤ)
    let sy : ℚ := (⌊((h : ℚ) - sh) / 2⌋ : ℤ)
    ⟨0, sy, sw, sh⟩

/-- One drawing command issued by `draw`, in issue order. -/
inductive RenderOp where
  | fillLinearGradient (x0 y0 x1 y1 : ℚ) (stops : List (ℚ × String)) (rx ry rw rh : ℚ)
  | drawImageOp (sx sy sw sh dx dy dw dh : ℚ)
  | logoOp (x y w h opacity blur : ℚ)
  | strokeTextOp (line : List Char) (x y : ℚ)
  | fillTextOp (line : List Char) (x y : ℚ)
deriving DecidableEq

/-- `drawFallbackBackground` from the source: a vertical two-stop gradient
over the whole 960×1200 canvas. -/
def drawFallbackBackground : RenderOp :=
  RenderOp.fillLinearGradient 0 0 0 1200 [(0, "#0c1224"), (1, "#05070f")] 0 0 960 1200

/-- `drawBottomPlate` from the source: the readability gradient band over the
bottom 320 px. -/
def drawBottomPlate : RenderOp :=
  RenderOp.fillLinearGradient 0 (1200 - 320) 0 1200
    [(0, "rgba(0,0,0,0.00)"), (0.35, "rgba(0,0,0,0.25)"), (1, "rgba(0,0,0,0.78)")]
    0 (1200 - 320) 960 320

/-- Step 1 of `draw`: cover-fit the background image, or paint the fallback
gradient when there is none (absent or failed decode). -/
def bgOpsOf (bg : Option Img) : List RenderOp :=
  match bg with
  | some img =>
    let c := coverCrop img.width img.height
    [RenderOp.drawImageOp c.sx c.sy c.sw c.sh 0 0 960 1200]
  | none => [drawFallbackBackground]

/-- Step 2.5 of `draw`: the blurred logo overlay, when a logo is configured
and decodes.  `targetH` reproduces `targetW / (logo.width / logo.height || 1)`
including the JavaScript behavior on degenerate zero dimensions. -/
def logoOpsOf (logo : Option Img) (ls : LogoSettings) : List RenderOp :=
  match logo with
  | none => []
  | some li =>
    let targetW := ls.size
    let targetH : ℚ :=
      if li.height = 0 then (if li.width = 0 then targetW else 0)
      else (if li.width = 0 then targetW else targetW * (li.height : ℚ) / (li.width : ℚ))
    [RenderOp.logoOp (960 - targetW - ls.padding) ls.padding targetW targetH ls.opacity ls.blur]

/-- `lines.length * drawFontSize * fontStyle.lineHeight` from `draw`. -/
def totalTextHeightOf (n : ℕ) (size lineHeight : ℚ) : ℚ := (n : ℚ) * size * lineHeight

/-- `H - fontStyle.paddingY - totalTextHeight / 2` from `draw`. -/
def textStartY (paddingY totalH : ℚ) : ℚ := 1200 - paddingY - totalH / 2

/-- `startY + idx * drawFontSize * fontStyle.lineHeight` from `draw`. -/
def lineY (startY size lineHeight : ℚ) (idx : ℕ) : ℚ :=
  startY + (idx : ℚ) * size * lineHeight

/-- The per-line drawing pass of `draw` (`lines.forEach` with index), issuing
one text command per line at the canvas midline `W / 2 = 480`. -/
def lineOps (mk : List Char → ℚ → ℚ → RenderOp) (startY size lineHeight : ℚ) :
    ℕ → List (List Char) → List RenderOp
  | _, [] => []
  | idx, ln :: rest =>
    mk ln 480 (lineY startY size lineHeight idx) :: lineOps mk startY size lineHeight (idx + 1) rest

/-- `draw` from the source, as the ordered command list of one render pass:
background (image or fallback), bottom plate, optional logo, then — unless the
trimmed text is empty — the fitted text, every line stroked first, then every
line filled. -/
def draw (bg : Option Img) (logo : Option Img) (ls : LogoSettings) (text : List Char)
    (fs : FontStyle) (measureAt : ℚ → List Char → ℚ) : List RenderOp :=
  let base := bgOpsOf bg ++ drawBottomPlate :: logoOpsOf logo ls
  let safeText := trimStr text
  if safeText = [] then base
  else
    let maxTextWidth : ℚ := 960 - fs.paddingX * 2
    let r := fitText measureAt maxTextWidth safeText fs.size
    let startY := textStartY fs.paddingY (totalTextHeightOf r.2.1.length r.1 fs.lineHeight)
    base ++ lineOps RenderOp.strokeTextOp startY r.1 fs.lineHeight 0 r.2.1
         ++ lineOps RenderOp.fillTextOp startY r.1 fs.lineHeight 0 r.2.1

/-- Whether a command draws text (stroke or fill pass). -/
def isTextOp : RenderOp → Bool
  | RenderOp.strokeTextOp _ _ _ => true
  | RenderOp.fillTextOp _ _ _ => true
  | _ => false

/-- `ln` is literally one token of the tokenization `wrapText` applies to
`text` (the token-atomicity exception of the wrapping contract). -/
def isTokenOf (text ln : List Char) : Prop :=
  ∃ p ∈ splitOnChar '\n' (stripCR text), ln ∈ tokensOf p

/-- A width model measuring every character as one unit, used to instantiate
the wrapping theorems on concrete inputs. -/
def lenMeasure : List Char → ℚ := fun ln => ln.length

/-- A size-indexed width model on which no line of a two-character text ever
fits a width budget of 10, used to exercise the fitting loop concretely. -/
def c1Measure : ℚ → List Char → ℚ := fun _ ln => 1000 * ln.length

/-- A size-indexed width model making a two-character glyph-wrapped text break
into two one-character lines within the default 800 px budget. -/
def c3Measure : ℚ → List Char → ℚ := fun _ ln => 500 * ln.length

/-- The default font style with size 40 and line-height 1, for concrete layout
computations. -/
def c3Style : FontStyle := { defaultFontStyle with size := 40, lineHeight := 1 }

/-! ## Lemmas about the wrapping loop -/

theorem wrapLoop_mem (measure : List Char → ℚ) (maxWidth : ℚ) (hs : Bool)
    (T : List (List Char)) :
    ∀ (tokens : List (List Char)) (line : List Char),
      (∀ t ∈ tokens, t ∈ T) →
      (line = [] ∨ line ∈ T ∨ measure line ≤ maxWidth) →
      ∀ ln ∈ wrapLoop measure maxWidth hs tokens line,
        ln ∈ T ∨ measure ln ≤ maxWidth := by
  intro tokens
  induction tokens with
  | nil =>
    intro line _ hline ln hln
    simp only [wrapLoop] at hln
    by_cases h : line = []
    · simp [h] at hln
    · simp [h] at hln
      subst hln
      rcases hline with h1 | h1 | h1
      · exact absurd h1 h
      · exact Or.inl h1
      · exact Or.inr h1
  | cons piece rest ih =>
    intro line htok hline ln hln
    have htok' : ∀ t ∈ rest, t ∈ T := fun t ht => htok t (List.mem_cons_of_mem _ ht)
    have hpieceT : piece ∈ T := htok piece (List.mem_cons_self _ _)
    simp only [wrapLoop] at hln
    by_cases hl : line = []
    · subst hl
      rw [if_pos rfl] at hln
      rw [if_neg (fun hc => hc.2 rfl)] at hln
      exact ih piece htok' (Or.inr (Or.inl hpieceT)) ln hln
    · rw [if_neg hl] at hln
      by_cases hgt : measure (if hs = true then line ++ [' '] ++ piece else line ++ piece) > maxWidth
      · rw [if_pos ⟨hgt, hl⟩] at hln
        rcases List.mem_cons.mp hln with h | h
        · subst h
          rcases hline with h1 | h1 | h1
          · exact absurd h1 hl
          · exact Or.inl h1
          · exact Or.inr h1
        · exact ih piece htok' (Or.inr (Or.inl hpieceT)) ln h
      · rw [if_neg (fun hc => hgt hc.1)] at hln
        exact ih _ htok' (Or.inr (Or.inr (not_lt.mp hgt))) ln hln

theorem wrapLoop_ne_nil (measure : List Char → ℚ) (maxWidth : ℚ) (hs : Bool) :
    ∀ (tokens : List (List Char)) (line : List Char),
      ∀ ln ∈ wrapLoop measure maxWidth hs tokens line, ln ≠ [] := by
  intro tokens
  induction tokens with
  | nil =>
    intro line ln hln
    simp only [wrapLoop] at hln
    by_cases h : line = []
    · simp [h] at hln
    · simp [h] at hln
      subst hln; exact h
  | cons piece rest ih =>
    intro line ln hln
    simp only [wrapLoop] at hln
    by_cases hl : line = []
    · subst hl
      rw [if_pos rfl] at hln
      rw [if_neg (fun hc => hc.2 rfl)] at hln
      exact ih piece ln hln
    · rw [if_neg hl] at hln
      by_cases hgt : measure (if hs = true then line ++ [' '] ++ piece else line ++ piece) > maxWidth
      · rw [if_pos ⟨hgt, hl⟩] at hln
        rcases List.mem_cons.mp hln with h | h
        · subst h; exact hl
        · exact ih piece ln h
      · rw [if_neg (fun hc => hgt hc.1)] at hln
        exact ih _ ln hln

theorem wrapLoop_flatten (measure : List Char → ℚ) (maxWidth : ℚ) :
    ∀ (tokens : List (List Char)) (line : List Char),
      (wrapLoop measure maxWidth false tokens line).flatten = line ++ tokens.flatten := by
  intro tokens
  induction tokens with
  | nil =>
    intro line
    by_cases h : line = [] <;> simp [wrapLoop, h]
  | cons piece rest ih =>
    intro line
    simp only [wrapLoop, Bool.false_eq_true, if_false]
    by_cases hl : line = []
    · subst hl
      rw [if_pos rfl, if_neg (fun hc => hc.2 rfl), ih]
      simp
    · rw [if_neg hl]
      by_cases hgt : measure (line ++ piece) > maxWidth
      · rw [if_pos ⟨hgt, hl⟩]
        simp [ih, List.append_assoc]
      · rw [if_neg (fun hc => hgt hc.1)]
        rw [ih]
        simp [List.append_assoc]

theorem mem_joinSep :
    ∀ (ls : List (List (List Char))) (ln : List Char),
      ln ∈ joinSep ls → (∃ l ∈ ls, ln ∈ l) ∨ ln = [] := by
  intro ls
  induction ls with
  | nil => intro ln h; simp [joinSep] at h
  | cons l rest ih =>
    intro ln h
    cases rest with
    | nil =>
      simp only [joinSep] at h
      exact Or.inl ⟨l, List.mem_cons_self _ _, h⟩
    | cons l2 ls2 =>
      simp only [joinSep] at h
      rcases List.mem_append.mp h with h1 | h1
      · exact Or.inl ⟨l, List.mem_cons_self _ _, h1⟩
      · rcases List.mem_cons.mp h1 with h2 | h2
        · exact Or.inr h2
        · rcases ih ln h2 with ⟨l', hl', hln'⟩ | h3
          · exact Or.inl ⟨l', List.mem_cons_of_mem _ hl', hln'⟩
          · exact Or.inr h3

theorem splitOnChar_not_mem {sep : Char} :
    ∀ {l : List Char}, sep ∉ l → splitOnChar sep l = [l] := by
  intro l
  induction l with
  | nil => intro _; rfl
  | cons c cs ih =>
    intro h
    have hc : c ≠ sep := fun hcs => h (hcs ▸ List.mem_cons_self _ _)
    have hcs : sep ∉ cs := fun hm => h (List.mem_cons_of_mem _ hm)
    simp only [splitOnChar, ih hcs]
    rw [if_neg hc]

theorem flatten_map_singleton (l : List Char) : (l.map fun c => [c]).flatten = l := by
  induction l with
  | nil => rfl
  | cons c cs ih => simp [ih]

theorem wrapParagraph_eq_wrapLoop (measure : List Char → ℚ) (maxWidth : ℚ)
    (paragraph : List Char) :
    wrapParagraph measure maxWidth paragraph =
      wrapLoop measure maxWidth (decide (' ' ∈ paragraph)) (tokensOf paragraph) [] := by
  unfold wrapParagraph tokensOf
  by_cases h : ' ' ∈ paragraph
  · rw [if_pos h, if_pos h, decide_eq_true h]
  · rw [if_neg h, if_neg h, decide_eq_false h]

/-! ## Claim C4 -/

/-- C4: for every input text, width budget, and text-measurement function
(monotone under string extension, measuring the empty string as 0, with a
nonnegative budget), every line emitted by `wrapText` has measured width at
most `maxWidth`, except a line that is a single token of the input's
tokenization (tokens are never split mid-token). -/
theorem wrapText_width_contract (measure : List Char → ℚ) (maxWidth : ℚ) (text : List Char)
    (hmono : ∀ s t : List Char, measure s ≤ measure (s ++ t))
    (hempty : measure [] = 0) (hmaxW : 0 ≤ maxWidth) :
    ∀ ln ∈ wrapText measure text maxWidth, measure ln ≤ maxWidth ∨ isTokenOf text ln := by
  intro ln hln
  unfold wrapText at hln
  rcases mem_joinSep _ _ hln with ⟨lpack, hlp, hmem⟩ | hnil
  · rcases List.mem_map.mp hlp with ⟨p, hp, rfl⟩
    rw [wrapParagraph_eq_wrapLoop] at hmem
    rcases wrapLoop_mem measure maxWidth _ (tokensOf p) (tokensOf p) []
        (fun _ ht => ht) (Or.inl rfl) ln hmem with h | h
    · exact Or.inr ⟨p, hp, h⟩
    · exact Or.inl h
  · subst hnil
    exact Or.inl (by rw [hempty]; exact hmaxW)

/-- Witness for C4 at a concrete measurement function, text, and budget. -/
theorem wrapText_width_contract_witness :
    ((∀ s t : List Char, lenMeasure s ≤ lenMeasure (s ++ t)) ∧
      lenMeasure [] = 0 ∧ (0 : ℚ) ≤ 1) ∧
    (∀ ln ∈ wrapText lenMeasure ['a', 'b'] 1,
      lenMeasure ln ≤ 1 ∨ isTokenOf ['a', 'b'] ln) := by
  have hmono : ∀ s t : List Char, lenMeasure s ≤ lenMeasure (s ++ t) := by
    intro s t
    simp only [lenMeasure, List.length_append]
    exact_mod_cast Nat.le_add_right _ _
  exact ⟨⟨hmono, rfl, by norm_num⟩,
    wrapText_width_contract lenMeasure 1 ['a', 'b'] hmono rfl (by norm_num)⟩

/-! ## Claim C5 -/

/-- C5: for every single-paragraph input (no newline, no carriage return)
containing no space character, `wrapText` runs in glyph-wrap mode: it returns
only non-empty lines, and the concatenation of the returned lines reproduces
the original string. -/
theorem wrapText_glyph_concat (measure : List Char → ℚ) (maxWidth : ℚ) (text : List Char)
    (hnl : '\n' ∉ text) (hcr : '\r' ∉ text) (hsp : ' ' ∉ text) :
    (∀ ln ∈ wrapText measure text maxWidth, ln ≠ []) ∧
    (wrapText measure text maxWidth).flatten = text := by
  have hstrip : stripCR text = text := by
    unfold stripCR
    refine List.filter_eq_self.mpr ?_
    intro c hc
    simp only [ne_eq, decide_eq_true_eq]
    exact fun h => hcr (h ▸ hc)
  have hpar : splitOnChar '\n' (stripCR text) = [text] := by
    rw [hstrip]; exact splitOnChar_not_mem hnl
  have hwrap : wrapText measure text maxWidth =
      wrapLoop measure maxWidth false (text.map fun c => [c]) [] := by
    unfold wrapText
    rw [hpar]
    simp only [List.map_cons, List.map_nil, joinSep]
    unfold wrapParagraph
    rw [if_neg hsp]
  constructor
  · intro ln hln
    rw [hwrap] at hln
    exact wrapLoop_ne_nil measure maxWidth false _ [] ln hln
  · rw [hwrap, wrapLoop_flatten]
    simp [flatten_map_singleton]

/-- Witness for C5 on a concrete spaceless single-paragraph text. -/
theorem wrapText_glyph_concat_witness :
    ('\n' ∉ (['a', 'b'] : List Char) ∧ '\r' ∉ (['a', 'b'] : List Char) ∧
      ' ' ∉ (['a', 'b'] : List Char)) ∧
    ((∀ ln ∈ wrapText lenMeasure ['a', 'b'] 1, ln ≠ []) ∧
      (wrapText lenMeasure ['a', 'b'] 1).flatten = ['a', 'b']) :=
  ⟨by decide, wrapText_glyph_concat lenMeasure 1 ['a', 'b'] (by decide) (by decide) (by decide)⟩

/-! ## Lemmas about the font-size fitting loop -/

theorem fitAux_lt34 (measureAt : ℚ → List Char → ℚ) (maxWidth : ℚ) (text : List Char)
    (fuel : ℕ) (size : ℚ) (lines : List (List Char)) (h : size < 34) :
    fitAux measureAt maxWidth text fuel size lines = (size, lines, 0) := by
  cases fuel with
  | zero => rfl
  | succ n =>
    simp only [fitAux]
    rw [if_neg (not_le.mpr h)]

theorem fitAux_count (measureAt : ℚ → List Char → ℚ) (maxWidth : ℚ) (text : List Char) :
    ∀ (fuel : ℕ) (size : ℚ) (lines : List (List Char)), 34 ≤ size →
      2 * (((fitAux measureAt maxWidth text fuel size lines).2.2 : ℚ)) ≤ size - 32 := by
  intro fuel
  induction fuel with
  | zero =>
    intro size lines h
    simp only [fitAux, Nat.cast_zero]
    linarith
  | succ n ih =>
    intro size lines h
    simp only [fitAux]
    rw [if_pos h]
    by_cases hfit : longestLineWidth (measureAt size) (wrapText (measureAt size) text maxWidth)
        ≤ maxWidth
    · rw [if_pos hfit]
      simp only [Nat.cast_one]
      linarith
    · rw [if_neg hfit]
      by_cases h2 : 34 ≤ size - 2
      · have hr := ih (size - 2) (wrapText (measureAt size) text maxWidth) h2
        simp only []
        push_cast
        push_cast at hr
        linarith
      · rw [fitAux_lt34 measureAt maxWidth text n (size - 2) _ (not_le.mp h2)]
        simp only [Nat.cast_ofNat, Nat.cast_one]
        norm_num
        linarith

theorem fitAux_ge32 (measureAt : ℚ → List Char → ℚ) (maxWidth : ℚ) (text : List Char) :
    ∀ (fuel : ℕ) (size : ℚ) (lines : List (List Char)), 32 ≤ size →
      32 ≤ (fitAux measureAt maxWidth text fuel size lines).1 := by
  intro fuel
  induction fuel with
  | zero =>
    intro size lines h
    simpa only [fitAux] using h
  | succ n ih =>
    intro size lines h
    simp only [fitAux]
    by_cases h34 : 34 ≤ size
    · rw [if_pos h34]
      by_cases hfit : longestLineWidth (measureAt size) (wrapText (measureAt size) text maxWidth)
          ≤ maxWidth
      · rw [if_pos hfit]
        exact h
      · rw [if_neg hfit]
        exact ih (size - 2) _ (by linarith)
    · rw [if_neg h34]
      exact h

theorem fitAux_fit (measureAt : ℚ → List Char → ℚ) (maxWidth : ℚ) (text : List Char) :
    ∀ (fuel : ℕ) (size : ℚ) (lines : List (List Char)),
      size < 34 + 2 * (fuel : ℚ) →
      34 ≤ (fitAux measureAt maxWidth text fuel size lines).1 →
      (fitAux measureAt maxWidth text fuel size lines).2.1 =
        wrapText (measureAt (fitAux measureAt maxWidth text fuel size lines).1) text maxWidth ∧
      longestLineWidth (measureAt (fitAux measureAt maxWidth text fuel size lines).1)
        (fitAux measureAt maxWidth text fuel size lines).2.1 ≤ maxWidth := by
  intro fuel
  induction fuel with
  | zero =>
    intro size lines hfuel hge
    simp only [fitAux] at hge
    simp only [Nat.cast_zero, mul_zero, add_zero] at hfuel
    linarith
  | succ n ih =>
    intro size lines hfuel hge
    simp only [fitAux] at hge ⊢
    by_cases h34 : 34 ≤ size
    · rw [if_pos h34] at hge ⊢
      by_cases hfit : longestLineWidth (measureAt size) (wrapText (measureAt size) text maxWidth)
          ≤ maxWidth
      · rw [if_pos hfit] at hge ⊢
        exact ⟨rfl, hfit⟩
      · rw [if_neg hfit] at hge ⊢
        have hf : size - 2 < 34 + 2 * (n : ℚ) := by
          push_cast at hfuel
          linarith
        exact ih (size - 2) _ hf hge
    · rw [if_neg h34] at hge
      exact absurd hge h34

theorem fitAux_nofit (measureAt : ℚ → List Char → ℚ) (maxWidth : ℚ) (text : List Char) :
    ∀ (fuel : ℕ) (size : ℚ) (lines : List (List Char)),
      (fitAux measureAt maxWidth text fuel size lines).1 < 34 →
      ∀ j : ℕ, 34 ≤ size - 2 * (j : ℚ) →
        maxWidth < longestLineWidth (measureAt (size - 2 * (j : ℚ)))
          (wrapText (measureAt (size - 2 * (j : ℚ))) text maxWidth) := by
  intro fuel
  induction fuel with
  | zero =>
    intro size lines hres j hj
    simp only [fitAux] at hres
    have : (0 : ℚ) ≤ 2 * (j : ℚ) := by positivity
    linarith
  | succ n ih =>
    intro size lines hres j hj
    simp only [fitAux] at hres
    by_cases h34 : 34 ≤ size
    · rw [if_pos h34] at hres
      by_cases hfit : longestLineWidth (measureAt size) (wrapText (measureAt size) text maxWidth)
          ≤ maxWidth
      · rw [if_pos hfit] at hres
        exact absurd h34 (not_le.mpr hres)
      · rw [if_neg hfit] at hres
        cases j with
        | zero =>
          simpa only [Nat.cast_zero, mul_zero, sub_zero] using not_le.mp hfit
        | succ k =>
          have hk : 34 ≤ (size - 2) - 2 * (k : ℚ) := by
            push_cast at hj
            linarith
          have := ih (size - 2) _ hres k hk
          have heq : size - 2 * ((k + 1 : ℕ) : ℚ) = (size - 2) - 2 * (k : ℚ) := by
            push_cast
            ring
          rw [heq]
          exact this
    · rw [if_neg h34] at hres
      have : (0 : ℚ) ≤ 2 * (j : ℚ) := by positivity
      linarith [not_le.mp h34]

theorem fitFuel_adequate (size : ℚ) : size < 34 + 2 * ((fitFuel size : ℕ) : ℚ) := by
  by_cases h : size < 34
  · have h0 : (0 : ℚ) ≤ ((fitFuel size : ℕ) : ℚ) := by positivity
    linarith
  · push_neg at h
    have h0 : (0 : ℤ) ≤ ⌈size⌉ := Int.ceil_nonneg (by linarith)
    have h1 : ((fitFuel size : ℕ) : ℤ) = ⌈size⌉ + 1 := by
      unfold fitFuel
      push_cast [Int.toNat_of_nonneg h0]
      ring
    have hcast : ((fitFuel size : ℕ) : ℚ) = ((⌈size⌉ : ℤ) : ℚ) + 1 := by
      exact_mod_cast h1
    have hle : size ≤ ((⌈size⌉ : ℤ) : ℚ) := Int.le_ceil size
    rw [hcast]
    linarith

/-! ## Claim C1 -/

/-- C1 (amended): for every non-empty text and configured initial size in
`[34, 120]`, the fitting loop of `draw` executes at most
`⌈(initialSize − 34)/2⌉ + 1` iterations; the final drawing size is at least
32; if the final size is ≥ 34 it is a tried size whose wrapping fits the
budget (and the drawn lines are that wrapping); and a final size below 34
means no tried size ≥ 34 fit — in that case rendering proceeds at a size in
`[32, 34)`, not at exactly 34. -/
theorem fitText_loop_contract (measureAt : ℚ → List Char → ℚ) (maxWidth : ℚ)
    (text : List Char) (size : ℚ)
    (htext : text ≠ []) (h34 : 34 ≤ size) (h120 : size ≤ 120) :
    2 * (((fitText measureAt maxWidth text size).2.2 : ℚ)) ≤ size - 32 ∧
    ((fitText measureAt maxWidth text size).2.2 : ℤ) ≤ ⌈(size - 34) / 2⌉ + 1 ∧
    32 ≤ (fitText measureAt maxWidth text size).1 ∧
    (34 ≤ (fitText measureAt maxWidth text size).1 →
      (fitText measureAt maxWidth text size).2.1 =
        wrapText (measureAt (fitText measureAt maxWidth text size).1) text maxWidth ∧
      longestLineWidth (measureAt (fitText measureAt maxWidth text size).1)
        (fitText measureAt maxWidth text size).2.1 ≤ maxWidth) ∧
    ((fitText measureAt maxWidth text size).1 < 34 →
      ∀ j : ℕ, 34 ≤ size - 2 * (j : ℚ) →
        maxWidth < longestLineWidth (measureAt (size - 2 * (j : ℚ)))
          (wrapText (measureAt (size - 2 * (j : ℚ))) text maxWidth)) := by
  have hcount := fitAux_count measureAt maxWidth text (fitFuel size) size [] h34
  refine ⟨hcount, ?_, ?_, ?_, ?_⟩
  · have h1 : (((fitText measureAt maxWidth text size).2.2 : ℤ) : ℚ) - 1 ≤ (size - 34) / 2 := by
      unfold fitText at hcount ⊢
      push_cast
      push_cast at hcount
      linarith
    have h2 : (size - 34) / 2 ≤ ((⌈(size - 34) / 2⌉ : ℤ) : ℚ) := Int.le_ceil _
    have h3 : (((fitText measureAt maxWidth text size).2.2 : ℤ) : ℚ) - 1 ≤
        ((⌈(size - 34) / 2⌉ : ℤ) : ℚ) := le_trans h1 h2
    have h4 : ((fitText measureAt maxWidth text size).2.2 : ℤ) - 1 ≤ ⌈(size - 34) / 2⌉ := by
      exact_mod_cast h3
    omega
  · exact fitAux_ge32 measureAt maxWidth text (fitFuel size) size [] (by linarith)
  · exact fitAux_fit measureAt maxWidth text (fitFuel size) size [] (fitFuel_adequate size)
  · exact fitAux_nofit measureAt maxWidth text (fitFuel size) size []

/-- Witness for C1 (amended) at a concrete measurement function and size. -/
theorem fitText_loop_contract_witness :
    ((['a'] : List Char) ≠ [] ∧ (34 : ℚ) ≤ 40 ∧ (40 : ℚ) ≤ 120) ∧
    (2 * (((fitText (fun _ _ => 0) 800 ['a'] 40).2.2 : ℚ)) ≤ 40 - 32 ∧
      ((fitText (fun _ _ => 0) 800 ['a'] 40).2.2 : ℤ) ≤ ⌈((40 : ℚ) - 34) / 2⌉ + 1 ∧
      32 ≤ (fitText (fun _ _ => 0) 800 ['a'] 40).1 ∧
      (34 ≤ (fitText (fun _ _ => 0) 800 ['a'] 40).1 →
        (fitText (fun _ _ => 0) 800 ['a'] 40).2.1 =
          wrapText ((fun (_ : ℚ) (_ : List Char) => (0 : ℚ)) (fitText (fun _ _ => 0) 800 ['a'] 40).1)
            ['a'] 800 ∧
        longestLineWidth ((fun (_ : ℚ) (_ : List Char) => (0 : ℚ))
            (fitText (fun _ _ => 0) 800 ['a'] 40).1)
          (fitText (fun _ _ => 0) 800 ['a'] 40).2.1 ≤ 800) ∧
      ((fitText (fun _ _ => 0) 800 ['a'] 40).1 < 34 →
        ∀ j : ℕ, 34 ≤ (40 : ℚ) - 2 * (j : ℚ) →
          (800 : ℚ) < longestLineWidth ((fun (_ : ℚ) (_ : List Char) => (0 : ℚ)) (40 - 2 * (j : ℚ)))
            (wrapText ((fun (_ : ℚ) (_ : List Char) => (0 : ℚ)) (40 - 2 * (j : ℚ))) ['a'] 800))) :=
  ⟨⟨by decide, by norm_num, by norm_num⟩,
    fitText_loop_contract (fun _ _ => 0) 800 ['a'] 40 (by decide) (by norm_num) (by norm_num)⟩

/-- C1 counterexample: at initial size 34 with a two-character text none of
whose lines ever fits the budget 10, the loop exits after one iteration with
drawing size 32 — strictly below 34 and not equal to 34 — refuting "the font
size actually used for drawing is never below 34" and "when no size fits,
rendering proceeds at exactly 34". -/
theorem fitText_floor_counterexample :
    fitText c1Measure 10 ['a', 'b'] 34 = (32, [['a'], ['b']], 1) ∧
    (fitText c1Measure 10 ['a', 'b'] 34).1 < 34 ∧
    (10 : ℚ) < longestLineWidth (c1Measure 34) (wrapText (c1Measure 34) ['a', 'b'] 10) := by
  have hmem : ' ' ∉ (['a', 'b'] : List Char) := by decide
  have hwrap : wrapText (c1Measure 34) ['a', 'b'] 10 = [['a'], ['b']] := by
    norm_num [wrapText, stripCR, splitOnChar, joinSep, wrapParagraph, wrapLoop, c1Measure, hmem]
  have hlong : (10 : ℚ) < longestLineWidth (c1Measure 34) [['a'], ['b']] := by
    norm_num [longestLineWidth, c1Measure]
  have hfuel : fitFuel 34 = 35 := by
    unfold fitFuel
    rw [show ⌈(34 : ℚ)⌉ = 34 from by norm_num]
    decide
  have hfit : fitText c1Measure 10 ['a', 'b'] 34 = (32, [['a'], ['b']], 1) := by
    rw [fitText, hfuel, show (35 : ℕ) = 34 + 1 from rfl, fitAux]
    rw [if_pos (le_refl (34 : ℚ))]
    simp only [hwrap]
    rw [if_neg (not_le.mpr hlong)]
    rw [fitAux_lt34 c1Measure 10 ['a', 'b'] 34 ((34 : ℚ) - 2) [['a'], ['b']] (by norm_num)]
    norm_num
  refine ⟨hfit, ?_, by rw [hwrap]; exact hlong⟩
  rw [hfit]
  norm_num

/-! ## Claim C10 -/

/-- C10: if `draw` runs with a configured font size strictly below 34 and a
non-empty trimmed text, the fitting loop body never executes (0 iterations),
the line list stays empty, no text command is issued at all, and the render
pass still consists of exactly the background, plate, and logo layers. -/
theorem draw_small_size_no_text (bg logo : Option Img) (ls : LogoSettings)
    (text : List Char) (fs : FontStyle) (measureAt : ℚ → List Char → ℚ)
    (hsize : fs.size < 34) (htext : trimStr text ≠ []) :
    fitText measureAt (960 - fs.paddingX * 2) (trimStr text) fs.size = (fs.size, [], 0) ∧
    draw bg logo ls text fs measureAt = bgOpsOf bg ++ drawBottomPlate :: logoOpsOf logo ls ∧
    ∀ op ∈ draw bg logo ls text fs measureAt, isTextOp op = false := by
  have hfit : fitText measureAt (960 - fs.paddingX * 2) (trimStr text) fs.size
      = (fs.size, [], 0) := by
    unfold fitText
    exact fitAux_lt34 measureAt _ _ _ _ _ hsize
  have hdraw : draw bg logo ls text fs measureAt
      = bgOpsOf bg ++ drawBottomPlate :: logoOpsOf logo ls := by
    simp only [draw]
    rw [if_neg htext, hfit]
    simp [lineOps]
  refine ⟨hfit, hdraw, ?_⟩
  intro op hop
  rw [hdraw] at hop
  rcases List.mem_append.mp hop with h | h
  · cases bg with
    | none =>
      simp only [bgOpsOf, List.mem_singleton] at h
      subst h; rfl
    | some img =>
      simp only [bgOpsOf, List.mem_singleton] at h
      subst h; rfl
  · rcases List.mem_cons.mp h with h1 | h1
    · subst h1; rfl
    · cases logo with
      | none => simp [logoOpsOf] at h1
      | some li =>
        simp only [logoOpsOf, List.mem_singleton] at h1
        subst h1; rfl

/-- Witness for C10 at a concrete sub-34 size and non-empty text. -/
theorem draw_small_size_no_text_witness :
    (({ defaultFontStyle with size := 30 } : FontStyle).size < 34 ∧
      trimStr ['h', 'i'] ≠ []) ∧
    (fitText (fun _ _ => 0) (960 - ({ defaultFontStyle with size := 30 } : FontStyle).paddingX * 2)
        (trimStr ['h', 'i']) ({ defaultFontStyle with size := 30 } : FontStyle).size
      = (({ defaultFontStyle with size := 30 } : FontStyle).size, [], 0) ∧
    draw (some ⟨100, 100⟩) (some ⟨50, 50⟩) ⟨120, 0.35, 1, 40⟩ ['h', 'i']
        { defaultFontStyle with size := 30 } (fun _ _ => 0)
      = bgOpsOf (some ⟨100, 100⟩) ++
        drawBottomPlate :: logoOpsOf (some ⟨50, 50⟩) ⟨120, 0.35, 1, 40⟩ ∧
    ∀ op ∈ draw (some ⟨100, 100⟩) (some ⟨50, 50⟩) ⟨120, 0.35, 1, 40⟩ ['h', 'i']
        { defaultFontStyle with size := 30 } (fun _ _ => 0), isTextOp op = false) :=
  ⟨⟨by norm_num [defaultFontStyle], by decide⟩,
    draw_small_size_no_text (some ⟨100, 100⟩) (some ⟨50, 50⟩) ⟨120, 0.35, 1, 40⟩ ['h', 'i']
      { defaultFontStyle with size := 30 } (fun _ _ => 0)
      (by norm_num [defaultFontStyle]) (by decide)⟩

/-! ## Claim C9 -/

/-- C9: when the background image is absent or fails to decode,
`loadImageSafe` resolves to `none` rather than throwing, and the render pass
is not aborted: it first fills the canvas with the fixed two-stop vertical
gradient from `#0c1224` (top) to `#05070f` (bottom), and then draws the next
layer (the bottom plate) — the rest of the pass follows. -/
theorem draw_fallback_background (logo : Option Img) (ls : LogoSettings) (text : List Char)
    (fs : FontStyle) (measureAt : ℚ → List Char → ℚ) :
    loadImageSafe DecodeOutcome.err = none ∧
    (draw none logo ls text fs measureAt).take 2 =
      [RenderOp.fillLinearGradient 0 0 0 1200 [(0, "#0c1224"), (1, "#05070f")] 0 0 960 1200,
        drawBottomPlate] := by
  refine ⟨rfl, ?_⟩
  simp only [draw]
  by_cases h : trimStr text = []
  · rw [if_pos h]; rfl
  · rw [if_neg h]; rfl

/-! ## Lemma about the per-line drawing pass -/

theorem lineOps_mem (mk : List Char → ℚ → ℚ → RenderOp) (sY size lh : ℚ) :
    ∀ (lines : List (List Char)) (i0 i : ℕ) (hi : i < lines.length),
      mk (lines.get ⟨i, hi⟩) 480 (lineY sY size lh (i0 + i)) ∈ lineOps mk sY size lh i0 lines := by
  intro lines
  induction lines with
  | nil => intro i0 i hi; simp at hi
  | cons ln rest ih =>
    intro i0 i hi
    cases i with
    | zero =>
      simp only [lineOps, List.get, Nat.add_zero]
      exact List.mem_cons_self _ _
    | succ k =>
      have hk : k < rest.length := Nat.lt_of_succ_lt_succ hi
      have hmem := ih (i0 + 1) k hk
      have harith : i0 + (k + 1) = (i0 + 1) + k := by omega
      simp only [lineOps, List.get]
      rw [harith]
      exact List.mem_cons_of_mem _ hmem

/-! ## Claim C3 -/

/-- C3 (amended): for every render of a non-empty trimmed text, the total
block height is `n · s · h`; the FIRST line's middle-baseline y-coordinate —
not the block's vertical center — equals
`canvasHeight − bottomPadding − totalHeight/2`; successive lines are `s · h`
apart; each line is stroked and filled at `startY + i·s·h`; and the actual
vertical center of the drawn lines (the midpoint of the first and last
baselines) is `canvasHeight − bottomPadding − s·h/2`, which differs from
`canvasHeight − bottomPadding − totalHeight/2` whenever `n ≥ 2`. -/
theorem draw_text_layout (bg logo : Option Img) (ls : LogoSettings) (text : List Char)
    (fs : FontStyle) (measureAt : ℚ → List Char → ℚ) (htext : trimStr text ≠ []) :
    let r := fitText measureAt (960 - fs.paddingX * 2) (trimStr text) fs.size
    let n := r.2.1.length
    let total := totalTextHeightOf n r.1 fs.lineHeight
    let sY := textStartY fs.paddingY total
    total = (n : ℚ) * r.1 * fs.lineHeight ∧
    sY = 1200 - fs.paddingY - total / 2 ∧
    (∀ i : ℕ, lineY sY r.1 fs.lineHeight (i + 1) - lineY sY r.1 fs.lineHeight i
      = r.1 * fs.lineHeight) ∧
    (∀ i : ℕ, ∀ hi : i < n,
      RenderOp.strokeTextOp (r.2.1.get ⟨i, hi⟩) 480 (lineY sY r.1 fs.lineHeight i)
        ∈ draw bg logo ls text fs measureAt) ∧
    (∀ i : ℕ, ∀ hi : i < n,
      RenderOp.fillTextOp (r.2.1.get ⟨i, hi⟩) 480 (lineY sY r.1 fs.lineHeight i)
        ∈ draw bg logo ls text fs measureAt) ∧
    (1 ≤ n → (lineY sY r.1 fs.lineHeight 0 + lineY sY r.1 fs.lineHeight (n - 1)) / 2
      = 1200 - fs.paddingY - r.1 * fs.lineHeight / 2) := by
  dsimp only
  refine ⟨rfl, rfl, ?_, ?_, ?_, ?_⟩
  · intro i
    simp only [lineY]
    push_cast
    ring
  · intro i hi
    have hmem := lineOps_mem RenderOp.strokeTextOp
      (textStartY fs.paddingY (totalTextHeightOf
        (fitText measureAt (960 - fs.paddingX * 2) (trimStr text) fs.size).2.1.length
        (fitText measureAt (960 - fs.paddingX * 2) (trimStr text) fs.size).1 fs.lineHeight))
      (fitText measureAt (960 - fs.paddingX * 2) (trimStr text) fs.size).1 fs.lineHeight
      (fitText measureAt (960 - fs.paddingX * 2) (trimStr text) fs.size).2.1 0 i hi
    simp only [Nat.zero_add] at hmem
    simp only [draw]
    rw [if_neg htext]
    exact List.mem_append.mpr (Or.inl (List.mem_append.mpr (Or.inr hmem)))
  · intro i hi
    have hmem := lineOps_mem RenderOp.fillTextOp
      (textStartY fs.paddingY (totalTextHeightOf
        (fitText measureAt (960 - fs.paddingX * 2) (trimStr text) fs.size).2.1.length
        (fitText measureAt (960 - fs.paddingX * 2) (trimStr text) fs.size).1 fs.lineHeight))
      (fitText measureAt (960 - fs.paddingX * 2) (trimStr text) fs.size).1 fs.lineHeight
      (fitText measureAt (960 - fs.paddingX * 2) (trimStr text) fs.size).2.1 0 i hi
    simp only [Nat.zero_add] at hmem
    simp only [draw]
    rw [if_neg htext]
    exact List.mem_append.mpr (Or.inr hmem)
  · intro hn
    simp only [lineY, textStartY, totalTextHeightOf]
    rw [Nat.cast_zero, Nat.cast_sub hn]
    push_cast
    ring

/-- Witness for C3 (amended) at a concrete two-line render. -/
theorem draw_text_layout_witness :
    (trimStr ['a', 'b'] ≠ []) ∧
    (let r := fitText c3Measure (960 - c3Style.paddingX * 2) (trimStr ['a', 'b']) c3Style.size
     let n := r.2.1.length
     let total := totalTextHeightOf n r.1 c3Style.lineHeight
     let sY := textStartY c3Style.paddingY total
     total = (n : ℚ) * r.1 * c3Style.lineHeight ∧
     sY = 1200 - c3Style.paddingY - total / 2 ∧
     (∀ i : ℕ, lineY sY r.1 c3Style.lineHeight (i + 1) - lineY sY r.1 c3Style.lineHeight i
       = r.1 * c3Style.lineHeight) ∧
     (∀ i : ℕ, ∀ hi : i < n,
       RenderOp.strokeTextOp (r.2.1.get ⟨i, hi⟩) 480 (lineY sY r.1 c3Style.lineHeight i)
         ∈ draw none none ⟨120, 0.35, 1, 40⟩ ['a', 'b'] c3Style c3Measure) ∧
     (∀ i : ℕ, ∀ hi : i < n,
       RenderOp.fillTextOp (r.2.1.get ⟨i, hi⟩) 480 (lineY sY r.1 c3Style.lineHeight i)
         ∈ draw none none ⟨120, 0.35, 1, 40⟩ ['a', 'b'] c3Style c3Measure) ∧
     (1 ≤ n → (lineY sY r.1 c3Style.lineHeight 0 + lineY sY r.1 c3Style.lineHeight (n - 1)) / 2
       = 1200 - c3Style.paddingY - r.1 * c3Style.lineHeight / 2)) :=
  ⟨by decide,
    draw_text_layout none none ⟨120, 0.35, 1, 40⟩ ['a', 'b'] c3Style c3Measure (by decide)⟩

/-- C3 counterexample: a concrete two-line render (text `"ab"` glyph-wrapped
at size 40, line-height 1, bottom padding 90) draws its two baselines at
y = 1070 and y = 1110, whose vertical center is 1090 — while
`canvasHeight − bottomPadding − totalHeight/2 = 1070` is the FIRST baseline,
not the block's center. -/
theorem draw_block_center_counterexample :
    draw none none ⟨120, 0.35, 1, 40⟩ ['a', 'b'] c3Style c3Measure =
      [drawFallbackBackground, drawBottomPlate,
        RenderOp.strokeTextOp ['a'] 480 1070, RenderOp.strokeTextOp ['b'] 480 1110,
        RenderOp.fillTextOp ['a'] 480 1070, RenderOp.fillTextOp ['b'] 480 1110] ∧
    ((1070 : ℚ) + 1110) / 2 ≠ textStartY c3Style.paddingY (totalTextHeightOf 2 40 1) := by
  have hmem : ' ' ∉ (['a', 'b'] : List Char) := by decide
  have hwrap : wrapText (c3Measure 40) ['a', 'b'] 800 = [['a'], ['b']] := by
    norm_num [wrapText, stripCR, splitOnChar, joinSep, wrapParagraph, wrapLoop, c3Measure, hmem]
  have hlong : longestLineWidth (c3Measure 40) [['a'], ['b']] ≤ 800 := by
    norm_num [longestLineWidth, c3Measure]
  have hfuel : fitFuel 40 = 41 := by
    unfold fitFuel
    rw [show ⌈(40 : ℚ)⌉ = 40 from by norm_num]
    decide
  have hfit : fitText c3Measure 800 ['a', 'b'] 40 = (40, [['a'], ['b']], 1) := by
    rw [fitText, hfuel, show (41 : ℕ) = 40 + 1 from rfl, fitAux]
    rw [if_pos (by norm_num : (34 : ℚ) ≤ 40)]
    simp only [hwrap]
    rw [if_pos hlong]
  constructor
  · simp only [draw]
    rw [show trimStr ['a', 'b'] = ['a', 'b'] from by decide]
    rw [if_neg (by decide : ¬(['a', 'b'] : List Char) = [])]
    rw [show (960 : ℚ) - c3Style.paddingX * 2 = 800 from by
      norm_num [c3Style, defaultFontStyle]]
    rw [show c3Style.size = (40 : ℚ) from by norm_num [c3Style, defaultFontStyle]]
    rw [hfit]
    simp only [bgOpsOf, logoOpsOf, lineOps, lineY, textStartY, totalTextHeightOf]
    norm_num [c3Style, defaultFontStyle]
  · norm_num [textStartY, totalTextHeightOf, c3Style, defaultFontStyle]

/-! ## Claim C2 -/

/-- C2 (amended): whenever the adaptive restyle runs (image set, preset
adaptive, image decoded, effect not cancelled), the derived style overwrites
the `fill`, `stroke`, `shadowColor`, `strokeWidth`, `size`, `paddingY`, and
`lineHeight` fields of the live `FontStyle`, while BOTH the user's
`fontWeight` and the current `fontFamily` are always preserved — the randomly
derived font stack is never applied, pinned or not (and the untouched
`paddingX`, `shadowBlur`, `shadowOffsetY` also persist). -/
theorem adaptStyle_merge_contract (pixels : List RGB) (rSize rPad rLine rFont : ℚ)
    (prev : FontStyle) :
    let d := deriveFontStyleFromImage pixels rSize rPad rLine rFont
    let m := adaptStyle true PresetMode.adaptive (some pixels) false rSize rPad rLine rFont prev
    m.fill = d.fill ∧ m.stroke = d.stroke ∧ m.shadowColor = d.shadowColor ∧
    m.strokeWidth = d.strokeWidth ∧ m.size = d.size ∧ m.paddingY = d.paddingY ∧
    m.lineHeight = d.lineHeight ∧ m.fontWeight = prev.fontWeight ∧
    m.fontFamily = prev.fontFamily ∧ m.paddingX = prev.paddingX ∧
    m.shadowBlur = prev.shadowBlur ∧ m.shadowOffsetY = prev.shadowOffsetY :=
  ⟨rfl, rfl, rfl, rfl, rfl, rfl, rfl, rfl, rfl, rfl, rfl, rfl⟩

/-- C2 counterexample: with the default (non-pinned) style, an adaptive run
whose random font draw selects the Kanit stack still leaves `fontFamily`
unchanged — the claim's "otherwise fontFamily takes the randomly derived
stack" is false, since the merge always writes back `prev.fontFamily`. -/
theorem adaptStyle_fontFamily_counterexample :
    (adaptStyle true PresetMode.adaptive (some [⟨10, 10, 10⟩]) false 0 0 0 (1/8)
        defaultFontStyle).fontFamily = defaultFontStyle.fontFamily ∧
    (deriveFontStyleFromImage [⟨10, 10, 10⟩] 0 0 0 (1/8)).fontFamily
      ≠ defaultFontStyle.fontFamily := by
  constructor
  · rfl
  · have h1 : (deriveFontStyleFromImage [⟨10, 10, 10⟩] 0 0 0 (1/8)).fontFamily
        = pickRandomFontStack (1/8) := rfl
    have hidx : Int.toNat ⌊(1/8 : ℚ) * ((FONT_CHOICES.length : ℕ) : ℚ)⌋ = 1 := by
      norm_num [FONT_CHOICES]
    have h2 : pickRandomFontStack (1/8) = buildFontStack (FONT_CHOICES.get? 1) := by
      rw [pickRandomFontStack, hidx]
    rw [h1, h2]
    decide

/-! ## Lemmas about the color-sampling loop -/

theorem scanStep_sum (st : ScanState) (p : RGB) :
    (scanStep st p).sumR = st.sumR + p.r ∧ (scanStep st p).sumG = st.sumG + p.g ∧
    (scanStep st p).sumB = st.sumB + p.b := by
  by_cases h : pixelScore p > st.maxScore <;> simp [scanStep, h]

theorem foldl_scanStep_sumR : ∀ (l : List RGB) (st : ScanState),
    (l.foldl scanStep st).sumR = st.sumR + (l.map RGB.r).sum := by
  intro l
  induction l with
  | nil => intro st; simp
  | cons p rest ih =>
    intro st
    rw [List.foldl_cons, ih, (scanStep_sum st p).1]
    simp [add_assoc]

theorem foldl_scanStep_sumG : ∀ (l : List RGB) (st : ScanState),
    (l.foldl scanStep st).sumG = st.sumG + (l.map RGB.g).sum := by
  intro l
  induction l with
  | nil => intro st; simp
  | cons p rest ih =>
    intro st
    rw [List.foldl_cons, ih, (scanStep_sum st p).2.1]
    simp [add_assoc]

theorem foldl_scanStep_sumB : ∀ (l : List RGB) (st : ScanState),
    (l.foldl scanStep st).sumB = st.sumB + (l.map RGB.b).sum := by
  intro l
  induction l with
  | nil => intro st; simp
  | cons p rest ih =>
    intro st
    rw [List.foldl_cons, ih, (scanStep_sum st p).2.2]
    simp [add_assoc]

theorem pixelScore_nonneg (p : RGB) (hr : 0 ≤ p.r) (hg : 0 ≤ p.g) (hb : 0 ≤ p.b) :
    0 ≤ pixelScore p := by
  simp only [pixelScore]
  have habs : 0 ≤ |getLuminance p - 128| / 128 := by positivity
  have h2 : (0 : ℚ) ≤ |getLuminance p - 128| / 128 * 0.4 :=
    mul_nonneg habs (by norm_num)
  by_cases h0 : max p.r (max p.g p.b) = 0
  · rw [if_pos h0]
    linarith
  · rw [if_neg h0]
    have hmx : 0 < max p.r (max p.g p.b) :=
      lt_of_le_of_ne (le_trans hr (le_max_left _ _)) (Ne.symm h0)
    have hmn : min p.r (min p.g p.b) ≤ max p.r (max p.g p.b) :=
      le_trans (min_le_left _ _) (le_max_left _ _)
    have hsat : 0 ≤ (max p.r (max p.g p.b) - min p.r (min p.g p.b)) / max p.r (max p.g p.b) :=
      div_nonneg (by linarith) (le_of_lt hmx)
    have h1 : (0 : ℚ) ≤ (max p.r (max p.g p.b) - min p.r (min p.g p.b)) / max p.r (max p.g p.b)
        * 0.6 := mul_nonneg hsat (by norm_num)
    linarith

theorem foldl_scanStep_accent : ∀ (l : List RGB) (st : ScanState),
    ((l.foldl scanStep st).accent = st.accent ∧ (l.foldl scanStep st).maxScore = st.maxScore ∧
      ∀ p ∈ l, pixelScore p ≤ st.maxScore) ∨
    (∃ pre a post, l = pre ++ a :: post ∧ (l.foldl scanStep st).accent = a ∧
      (l.foldl scanStep st).maxScore = pixelScore a ∧ st.maxScore < pixelScore a ∧
      (∀ p ∈ l, pixelScore p ≤ pixelScore a) ∧ ∀ p ∈ pre, pixelScore p < pixelScore a) := by
  intro l
  induction l with
  | nil =>
    intro st
    left
    exact ⟨rfl, rfl, by simp⟩
  | cons p rest ih =>
    intro st
    rw [List.foldl_cons]
    by_cases hp : pixelScore p > st.maxScore
    · have hstep : scanStep st p
          = ⟨st.sumR + p.r, st.sumG + p.g, st.sumB + p.b, pixelScore p, p⟩ := by
        unfold scanStep
        rw [if_pos hp]
      rw [hstep]
      rcases ih ⟨st.sumR + p.r, st.sumG + p.g, st.sumB + p.b, pixelScore p, p⟩ with
        ⟨ha, hm, hall⟩ | ⟨pre, a, post, hl, ha, hm, hlt, hall, hpre⟩
      · right
        refine ⟨[], p, rest, rfl, ha, hm, hp, ?_, by simp⟩
        intro q hq
        rcases List.mem_cons.mp hq with hq1 | hq1
        · subst hq1; exact le_refl _
        · exact hall q hq1
      · right
        refine ⟨p :: pre, a, post, by rw [hl, List.cons_append], ha, hm, lt_trans hp hlt, ?_, ?_⟩
        · intro q hq
          rcases List.mem_cons.mp hq with hq1 | hq1
          · subst hq1; exact le_of_lt hlt
          · exact hall q hq1
        · intro q hq
          rcases List.mem_cons.mp hq with hq1 | hq1
          · subst hq1; exact hlt
          · exact hpre q hq1
    · have hstep : scanStep st p
          = ⟨st.sumR + p.r, st.sumG + p.g, st.sumB + p.b, st.maxScore, st.accent⟩ := by
        unfold scanStep
        rw [if_neg hp]
      rw [hstep]
      rcases ih ⟨st.sumR + p.r, st.sumG + p.g, st.sumB + p.b, st.maxScore, st.accent⟩ with
        ⟨ha, hm, hall⟩ | ⟨pre, a, post, hl, ha, hm, hlt, hall, hpre⟩
      · left
        refine ⟨ha, hm, ?_⟩
        intro q hq
        rcases List.mem_cons.mp hq with hq1 | hq1
        · subst hq1; exact not_lt.mp hp
        · exact hall q hq1
      · right
        refine ⟨p :: pre, a, post, by rw [hl, List.cons_append], ha, hm, hlt, ?_, ?_⟩
        · intro q hq
          rcases List.mem_cons.mp hq with hq1 | hq1
          · subst hq1; exact le_of_lt (lt_of_le_of_lt (not_lt.mp hp) hlt)
          · exact hall q hq1
        · intro q hq
          rcases List.mem_cons.mp hq with hq1 | hq1
          · subst hq1; exact lt_of_le_of_lt (not_lt.mp hp) hlt
          · exact hpre q hq1

/-! ## Claim C6 -/

/-- C6: the `isDark` field of the computed `ImageTone` is `true` if and only
if `0.299·avgR + 0.587·avgG + 0.114·avgB < 115`; in particular an average
whose luminance is exactly 115 is classified as not dark. -/
theorem analyzeImageColors_isDark_iff (pixels : List RGB) :
    ((analyzeImageColors pixels).isDark = true ↔
      0.299 * (analyzeImageColors pixels).average.r +
        0.587 * (analyzeImageColors pixels).average.g +
        0.114 * (analyzeImageColors pixels).average.b < 115) ∧
    (0.299 * (analyzeImageColors pixels).average.r +
        0.587 * (analyzeImageColors pixels).average.g +
        0.114 * (analyzeImageColors pixels).average.b = 115 →
      (analyzeImageColors pixels).isDark = false) := by
  constructor
  · simp only [analyzeImageColors, getLuminance, decide_eq_true_eq]
  · intro h
    simp only [analyzeImageColors, getLuminance] at h ⊢
    exact decide_eq_false (by rw [h]; exact lt_irrefl _)

/-- Witness for C6: a uniform gray image whose average luminance is exactly
115 is classified as not dark. -/
theorem analyzeImageColors_isDark_witness :
    (analyzeImageColors [⟨115, 115, 115⟩]).isDark = false :=
  (analyzeImageColors_isDark_iff [⟨115, 115, 115⟩]).2 (by
    simp only [analyzeImageColors]
    rw [foldl_scanStep_sumR, foldl_scanStep_sumG, foldl_scanStep_sumB]
    norm_num)

/-! ## Claim C7 -/

/-- C7: for a 4096-pixel sample whose channels lie in `[0, 255]`, the average
returned by `analyzeImageColors` is the arithmetic mean of the sampled
channels and each of its channels lies within `[0, 255]`; and the accent is
the first pixel in scan order attaining the maximal salience score
`0.6·saturation + 0.4·contrastToMid` (every pixel scores at most the accent's
score, and every pixel strictly before the accent scores strictly less). -/
theorem analyzeImageColors_contract (pixels : List RGB)
    (hlen : pixels.length = 4096)
    (hrange : ∀ p ∈ pixels,
      (0 ≤ p.r ∧ p.r ≤ 255) ∧ (0 ≤ p.g ∧ p.g ≤ 255) ∧ (0 ≤ p.b ∧ p.b ≤ 255)) :
    (analyzeImageColors pixels).average.r = (pixels.map RGB.r).sum / 4096 ∧
    (analyzeImageColors pixels).average.g = (pixels.map RGB.g).sum / 4096 ∧
    (analyzeImageColors pixels).average.b = (pixels.map RGB.b).sum / 4096 ∧
    (0 ≤ (analyzeImageColors pixels).average.r ∧ (analyzeImageColors pixels).average.r ≤ 255) ∧
    (0 ≤ (analyzeImageColors pixels).average.g ∧ (analyzeImageColors pixels).average.g ≤ 255) ∧
    (0 ≤ (analyzeImageColors pixels).average.b ∧ (analyzeImageColors pixels).average.b ≤ 255) ∧
    ∃ pre post, pixels = pre ++ (analyzeImageColors pixels).accent :: post ∧
      (∀ p ∈ pixels, pixelScore p ≤ pixelScore (analyzeImageColors pixels).accent) ∧
      ∀ p ∈ pre, pixelScore p < pixelScore (analyzeImageColors pixels).accent := by
  have havgR : (analyzeImageColors pixels).average.r = (pixels.map RGB.r).sum / 4096 := by
    simp only [analyzeImageColors]
    rw [foldl_scanStep_sumR, hlen]
    norm_num
  have havgG : (analyzeImageColors pixels).average.g = (pixels.map RGB.g).sum / 4096 := by
    simp only [analyzeImageColors]
    rw [foldl_scanStep_sumG, hlen]
    norm_num
  have havgB : (analyzeImageColors pixels).average.b = (pixels.map RGB.b).sum / 4096 := by
    simp only [analyzeImageColors]
    rw [foldl_scanStep_sumB, hlen]
    norm_num
  have hboundR : 0 ≤ (analyzeImageColors pixels).average.r ∧
      (analyzeImageColors pixels).average.r ≤ 255 := by
    have hnn : 0 ≤ (pixels.map RGB.r).sum := List.sum_nonneg (by
      intro x hx
      rcases List.mem_map.mp hx with ⟨p, hp, rfl⟩
      exact ((hrange p hp).1).1)
    have hub : (pixels.map RGB.r).sum ≤ (4096 : ℕ) • (255 : ℚ) := by
      have h := List.sum_le_card_nsmul (pixels.map RGB.r) 255 (by
        intro x hx
        rcases List.mem_map.mp hx with ⟨p, hp, rfl⟩
        exact ((hrange p hp).1).2)
      rwa [List.length_map, hlen] at h
    rw [havgR]
    rw [nsmul_eq_mul] at hub
    push_cast at hub
    constructor
    · positivity
    · rw [div_le_iff (by norm_num : (0 : ℚ) < 4096)]
      linarith
  have hboundG : 0 ≤ (analyzeImageColors pixels).average.g ∧
      (analyzeImageColors pixels).average.g ≤ 255 := by
    have hnn : 0 ≤ (pixels.map RGB.g).sum := List.sum_nonneg (by
      intro x hx
      rcases List.mem_map.mp hx with ⟨p, hp, rfl⟩
      exact ((hrange p hp).2.1).1)
    have hub : (pixels.map RGB.g).sum ≤ (4096 : ℕ) • (255 : ℚ) := by
      have h := List.sum_le_card_nsmul (pixels.map RGB.g) 255 (by
        intro x hx
        rcases List.mem_map.mp hx with ⟨p, hp, rfl⟩
        exact ((hrange p hp).2.1).2)
      rwa [List.length_map, hlen] at h
    rw [havgG]
    rw [nsmul_eq_mul] at hub
    push_cast at hub
    constructor
    · positivity
    · rw [div_le_iff (by norm_num : (0 : ℚ) < 4096)]
      linarith
  have hboundB : 0 ≤ (analyzeImageColors pixels).average.b ∧
      (analyzeImageColors pixels).average.b ≤ 255 := by
    have hnn : 0 ≤ (pixels.map RGB.b).sum := List.sum_nonneg (by
      intro x hx
      rcases List.mem_map.mp hx with ⟨p, hp, rfl⟩
      exact ((hrange p hp).2.2).1)
    have hub : (pixels.map RGB.b).sum ≤ (4096 : ℕ) • (255 : ℚ) := by
      have h := List.sum_le_card_nsmul (pixels.map RGB.b) 255 (by
        intro x hx
        rcases List.mem_map.mp hx with ⟨p, hp, rfl⟩
        exact ((hrange p hp).2.2).2)
      rwa [List.length_map, hlen] at h
    rw [havgB]
    rw [nsmul_eq_mul] at hub
    push_cast at hub
    constructor
    · positivity
    · rw [div_le_iff (by norm_num : (0 : ℚ) < 4096)]
      linarith
  refine ⟨havgR, havgG, havgB, hboundR, hboundG, hboundB, ?_⟩
  rcases foldl_scanStep_accent pixels ⟨0, 0, 0, -1, ⟨255, 255, 255⟩⟩ with
    ⟨_, _, hall⟩ | ⟨pre, a, post, hl, ha, _, _, hall, hpre⟩
  · exfalso
    have hne : pixels ≠ [] := by
      intro h
      rw [h] at hlen
      simp at hlen
    obtain ⟨p, hp⟩ := List.exists_mem_of_ne_nil pixels hne
    have h1 : pixelScore p ≤ -1 := hall p hp
    have h2 := pixelScore_nonneg p ((hrange p hp).1).1 ((hrange p hp).2.1).1 ((hrange p hp).2.2).1
    linarith
  · have haccent : (analyzeImageColors pixels).accent = a := by
      simp only [analyzeImageColors]
      exact ha
    rw [haccent]
    exact ⟨pre, post, hl, hall, hpre⟩

/-- Witness for C7 on a concrete uniform 64×64 sample. -/
theorem analyzeImageColors_contract_witness :
    ((List.replicate 4096 (⟨10, 20, 30⟩ : RGB)).length = 4096 ∧
      (∀ p ∈ List.replicate 4096 (⟨10, 20, 30⟩ : RGB),
        (0 ≤ p.r ∧ p.r ≤ 255) ∧ (0 ≤ p.g ∧ p.g ≤ 255) ∧ (0 ≤ p.b ∧ p.b ≤ 255))) ∧
    ((analyzeImageColors (List.replicate 4096 ⟨10, 20, 30⟩)).average.r
        = ((List.replicate 4096 (⟨10, 20, 30⟩ : RGB)).map RGB.r).sum / 4096 ∧
      (analyzeImageColors (List.replicate 4096 ⟨10, 20, 30⟩)).average.g
        = ((List.replicate 4096 (⟨10, 20, 30⟩ : RGB)).map RGB.g).sum / 4096 ∧
      (analyzeImageColors (List.replicate 4096 ⟨10, 20, 30⟩)).average.b
        = ((List.replicate 4096 (⟨10, 20, 30⟩ : RGB)).map RGB.b).sum / 4096 ∧
      (0 ≤ (analyzeImageColors (List.replicate 4096 ⟨10, 20, 30⟩)).average.r ∧
        (analyzeImageColors (List.replicate 4096 ⟨10, 20, 30⟩)).average.r ≤ 255) ∧
      (0 ≤ (analyzeImageColors (List.replicate 4096 ⟨10, 20, 30⟩)).average.g ∧
        (analyzeImageColors (List.replicate 4096 ⟨10, 20, 30⟩)).average.g ≤ 255) ∧
      (0 ≤ (analyzeImageColors (List.replicate 4096 ⟨10, 20, 30⟩)).average.b ∧
        (analyzeImageColors (List.replicate 4096 ⟨10, 20, 30⟩)).average.b ≤ 255) ∧
      ∃ pre post, List.replicate 4096 (⟨10, 20, 30⟩ : RGB)
          = pre ++ (analyzeImageColors (List.replicate 4096 ⟨10, 20, 30⟩)).accent :: post ∧
        (∀ p ∈ List.replicate 4096 (⟨10, 20, 30⟩ : RGB),
          pixelScore p ≤ pixelScore (analyzeImageColors (List.replicate 4096 ⟨10, 20, 30⟩)).accent) ∧
        ∀ p ∈ pre,
          pixelScore p < pixelScore (analyzeImageColors (List.replicate 4096 ⟨10, 20, 30⟩)).accent) := by
  have hlen : (List.replicate 4096 (⟨10, 20, 30⟩ : RGB)).length = 4096 := by
    rw [List.length_replicate]
  have hrange : ∀ p ∈ List.replicate 4096 (⟨10, 20, 30⟩ : RGB),
      (0 ≤ p.r ∧ p.r ≤ 255) ∧ (0 ≤ p.g ∧ p.g ≤ 255) ∧ (0 ≤ p.b ∧ p.b ≤ 255) := by
    intro p hp
    have h := List.eq_of_mem_replicate hp
    subst h
    norm_num
  exact ⟨⟨hlen, hrange⟩, analyzeImageColors_contract _ hlen hrange⟩

/-! ## Claim C8 -/

/-- C8: for every background image with positive dimensions, the cover-fit
crop rectangle computed by `draw` has aspect ratio `960 : 1200` within one
pixel of integer rounding (`|1200·sw − 960·sh| < 1200`), is centered
(`sx = ⌊(w − sw)/2⌋` and `sy = ⌊(h − sh)/2⌋` both hold, one of them being 0),
and lies entirely within the source image bounds. -/
theorem coverCrop_contract (w h : ℕ) (hw : 0 < w) (hh : 0 < h) :
    |1200 * (coverCrop w h).sw - 960 * (coverCrop w h).sh| < 1200 ∧
    (coverCrop w h).sx = ((⌊((w : ℚ) - (coverCrop w h).sw) / 2⌋ : ℤ) : ℚ) ∧
    (coverCrop w h).sy = ((⌊((h : ℚ) - (coverCrop w h).sh) / 2⌋ : ℤ) : ℚ) ∧
    0 ≤ (coverCrop w h).sx ∧ (coverCrop w h).sx + (coverCrop w h).sw ≤ (w : ℚ) ∧
    0 ≤ (coverCrop w h).sy ∧ (coverCrop w h).sy + (coverCrop w h).sh ≤ (h : ℚ) := by
  have hwq : (0 : ℚ) < w := by exact_mod_cast hw
  have hhq : (0 : ℚ) < h := by exact_mod_cast hh
  simp only [coverCrop]
  by_cases hAR : (w : ℚ) / h > 960 / 1200
  · rw [if_pos hAR]
    dsimp only
    have hfl : ((⌊(h : ℚ) * (960 / 1200)⌋ : ℤ) : ℚ) ≤ (h : ℚ) * (960 / 1200) := Int.floor_le _
    have hfg : (h : ℚ) * (960 / 1200) - 1 < ((⌊(h : ℚ) * (960 / 1200)⌋ : ℤ) : ℚ) :=
      Int.sub_one_lt_floor _
    have hwgt : (960 / 1200 : ℚ) * h < w := (lt_div_iff hhq).mp hAR
    have hswlt : ((⌊(h : ℚ) * (960 / 1200)⌋ : ℤ) : ℚ) < (w : ℚ) := by linarith
    have hsxle : ((⌊((w : ℚ) - ((⌊(h : ℚ) * (960 / 1200)⌋ : ℤ) : ℚ)) / 2⌋ : ℤ) : ℚ)
        ≤ ((w : ℚ) - ((⌊(h : ℚ) * (960 / 1200)⌋ : ℤ) : ℚ)) / 2 := Int.floor_le _
    refine ⟨?_, rfl, ?_, ?_, ?_, ?_, ?_⟩
    · rw [abs_lt]
      constructor <;> linarith
    · simp
    · have h0 : (0 : ℤ) ≤ ⌊((w : ℚ) - ((⌊(h : ℚ) * (960 / 1200)⌋ : ℤ) : ℚ)) / 2⌋ :=
        Int.floor_nonneg.mpr (div_nonneg (by linarith) (by norm_num))
      exact_mod_cast h0
    · linarith
    · norm_num
    · simp
  · rw [if_neg hAR]
    push_neg at hAR
    dsimp only
    have hwle : (w : ℚ) ≤ 960 / 1200 * h := (div_le_iff hhq).mp hAR
    have hfl : ((⌊(w : ℚ) / (960 / 1200)⌋ : ℤ) : ℚ) ≤ (w : ℚ) / (960 / 1200) := Int.floor_le _
    have hfg : (w : ℚ) / (960 / 1200) - 1 < ((⌊(w : ℚ) / (960 / 1200)⌋ : ℤ) : ℚ) :=
      Int.sub_one_lt_floor _
    have hB : (w : ℚ) / (960 / 1200) = 5 / 4 * w := by
      rw [show (960 / 1200 : ℚ) = 4 / 5 from by norm_num]
      rw [div_div_eq_mul_div]
      ring
    have hwle2 : (w : ℚ) ≤ 4 / 5 * h := by
      rw [show (960 / 1200 : ℚ) = 4 / 5 from by norm_num] at hwle
      linarith
    have hshle : ((⌊(w : ℚ) / (960 / 1200)⌋ : ℤ) : ℚ) ≤ (h : ℚ) := by linarith [hB]
    have hsyle : ((⌊((h : ℚ) - ((⌊(w : ℚ) / (960 / 1200)⌋ : ℤ) : ℚ)) / 2⌋ : ℤ) : ℚ)
        ≤ ((h : ℚ) - ((⌊(w : ℚ) / (960 / 1200)⌋ : ℤ) : ℚ)) / 2 := Int.floor_le _
    refine ⟨?_, ?_, rfl, ?_, ?_, ?_, ?_⟩
    · rw [abs_lt]
      constructor <;> linarith [hB]
    · simp
    · norm_num
    · simp
    · have h0 : (0 : ℤ) ≤ ⌊((h : ℚ) - ((⌊(w : ℚ) / (960 / 1200)⌋ : ℤ) : ℚ)) / 2⌋ :=
        Int.floor_nonneg.mpr (div_nonneg (by linarith [hB]) (by norm_num))
      exact_mod_cast h0
    · linarith [hB]

/-- Witness for C8 at a concrete 100×100 image (landscape-cropped case). -/
theorem coverCrop_contract_witness :
    ((0 : ℕ) < 100 ∧ (0 : ℕ) < 100) ∧
    (|1200 * (coverCrop 100 100).sw - 960 * (coverCrop 100 100).sh| < 1200 ∧
      (coverCrop 100 100).sx = ((⌊(((100 : ℕ) : ℚ) - (coverCrop 100 100).sw) / 2⌋ : ℤ) : ℚ) ∧
      (coverCrop 100 100).sy = ((⌊(((100 : ℕ) : ℚ) - (coverCrop 100 100).sh) / 2⌋ : ℤ) : ℚ) ∧
      0 ≤ (coverCrop 100 100).sx ∧
      (coverCrop 100 100).sx + (coverCrop 100 100).sw ≤ ((100 : ℕ) : ℚ) ∧
      0 ≤ (coverCrop 100 100).sy ∧
      (coverCrop 100 100).sy + (coverCrop 100 100).sh ≤ ((100 : ℕ) : ℚ)) :=
  ⟨⟨by norm_num, by norm_num⟩, coverCrop_contract 100 100 (by norm_num) (by norm_num)⟩

end ImageComposer
